import Mathlib

/-!
Shallow embedding of the Enexory API example client (`src/enexory_api.py`):
the tabular post-processing pipeline (resample to a fixed time step, per-column
outlier removal, forward fill), the HTTP status check, and the catalog parsing,
together with theorems settling the specification's claims about them.

Numeric cells are modelled over `ℚ`; a pandas `NaN` (missing value) is
modelled as `none`.  A pandas comparison involving `NaN` yields `False`,
which the embedding reproduces explicitly at each use site.
-/

set_option allowUnsafeReducibility true

attribute [local semireducible] Rat.add Rat.mul Rat.inv Rat.sub

namespace Enexory

/-- One dataframe cell: a numeric value or missing (`NaN`). -/
abbrev Cell := Option ℚ

/-- One dataframe row: the cells of the value columns, in column order. -/
abbrev Row := List Cell

/-- Time-indexed table: `(timestamp, cells)` per row, timestamps in minutes. -/
abbrev Table := List (ℕ × Row)

/-- Number of value columns of the table (width of its first row). -/
def widthOf : Table → ℕ
  | [] => 0
  | (_, r) :: _ => r.length

/-- Earliest timestamp of the table (`df.index.min()`), `0` when empty. -/
def minTime : Table → ℕ
  | [] => 0
  | (t, _) :: rest => rest.foldl (fun a r => min a r.1) t

/-- Latest timestamp of the table (`df.index.max()`), `0` when empty. -/
def maxTime : Table → ℕ
  | [] => 0
  | (t, _) :: rest => rest.foldl (fun a r => max a r.1) t

/-- Midnight of the day containing minute `t` (pandas resample origin
`start_day`, the default for a `timedelta` frequency). -/
def dayStart (t : ℕ) : ℕ := t / 1440 * 1440

/-- Index of the bucket of width `step` (minutes) containing minute `t`,
counted from `origin` (buckets are closed on the left, the pandas default). -/
def bucketIdx (origin step t : ℕ) : ℕ := (t - origin) / step

/-- The rows of `tbl` falling into bucket `i`. -/
def bucketRows (origin step i : ℕ) (tbl : Table) : Table :=
  tbl.filter (fun r => bucketIdx origin step r.1 == i)

/-- The present (non-missing) values of column `j` over the given rows. -/
def presentIn (j : ℕ) (tbl : Table) : List ℚ :=
  tbl.filterMap (fun r => r.2.getD j none)

/-- Mean of a list of values; `none` on the empty list (pandas `mean()` of an
all-`NaN` group is `NaN`). -/
def colMean (ps : List ℚ) : Cell :=
  if ps.isEmpty then none else some (ps.sum / ps.length)

/-- Stage A, `src/enexory_api.py` lines 105-106:
`df = df.resample(timedelta(hours=4)).mean()` generalised to any positive
`step` in minutes.  Pandas emits one output row per bucket from the bucket of
the earliest timestamp through the bucket of the latest one — empty buckets
included, with `NaN` cells — labelled by bucket start, in increasing order. -/
def resampleMean (step : ℕ) (tbl : Table) : Table :=
  match tbl with
  | [] => []
  | _ :: _ =>
    let origin := dayStart (minTime tbl)
    let blo := bucketIdx origin step (minTime tbl)
    let bhi := bucketIdx origin step (maxTime tbl)
    (List.range (bhi + 1 - blo)).map (fun k =>
      (origin + (blo + k) * step,
       (List.range (widthOf tbl)).map (fun j =>
         colMean (presentIn j (bucketRows origin step (blo + k) tbl)))))

/-- Column mean of the present values of column `j`, as computed by
`df[col].describe()["mean"]` (meaningful only when the column has at least
one present value). -/
def colMeanOf (j : ℕ) (tbl : Table) : ℚ :=
  (presentIn j tbl).sum / (presentIn j tbl).length

/-- Sample variance (`ddof = 1`, the pandas default) of the present values of
column `j`: the square of `df[col].describe()["std"]` (meaningful only when
the column has at least two present values). -/
def colVarOf (j : ℕ) (tbl : Table) : ℚ :=
  ((presentIn j tbl).map (fun x => (x - colMeanOf j tbl) ^ 2)).sum /
    (((presentIn j tbl).length : ℚ) - 1)

/-- The row mask `abs(df[col] - mean) < max_dev` for one cell, with
`max_dev = 10 * std`.  Over the reals `|x - μ| < 10·σ ↔ (x - μ)² < 100·σ²`
(both sides are nonnegative), and `σ² = v` is the sample variance, so the
comparison is phrased on squares to stay inside `ℚ`.  A `NaN` cell compares
`False` and is therefore dropped by `df.loc[mask]`. -/
def keepCell (μ v : ℚ) : Cell → Bool
  | none => false
  | some x => decide ((x - μ) ^ 2 < 100 * v)

/-- One iteration of Stage B's loop, `src/enexory_api.py` lines 117-128:
`df = df.loc[abs(df[col] - mean) < max_dev]` for column `j`.  When the column
has fewer than two present values, `describe()["std"]` (or also `"mean"`) is
`NaN`, the mask is `False` everywhere, and every row is dropped. -/
def filterCol (j : ℕ) (tbl : Table) : Table :=
  if 2 ≤ (presentIn j tbl).length then
    tbl.filter (fun r => keepCell (colMeanOf j tbl) (colVarOf j tbl) (r.2.getD j none))
  else []

/-- Stage B run over an explicit column order (`for col in df`, except with
the iteration order made a parameter). -/
def removeOutliersIn (cols : List ℕ) (tbl : Table) : Table :=
  cols.foldl (fun acc j => filterCol j acc) tbl

/-- Stage B, `src/enexory_api.py` lines 117-128: the per-column filter folded
over the original table's columns in order (`for col in df` iterates the
columns of the dataframe as it was when the loop started). -/
def removeOutliers (tbl : Table) : Table :=
  removeOutliersIn (List.range (widthOf tbl)) tbl

/-- Forward fill of one cell: keep a present value, otherwise take the
last known value `l`. -/
def fillCell (l v : Cell) : Cell :=
  match v with
  | some x => some x
  | none => l

/-- Forward fill of one row against the vector of last known column values. -/
def fillRow (lastv r : Row) : Row :=
  List.zipWith fillCell lastv r

/-- Scan of Stage C over the rows, carrying the per-column last known
values; a filled value becomes the new last known value of its column. -/
def ffillGo : Row → Table → Table
  | _, [] => []
  | lastv, (t, r) :: rest =>
    let r' := fillRow lastv r
    (t, r') :: ffillGo r' rest

/-- Stage C, `src/enexory_api.py` lines 136-137:
`df.fillna(method='ffill', inplace=True)`.  Before the first present value of
a column there is nothing to fill with, modelled by starting the scan from
all-missing last known values. -/
def ffill (tbl : Table) : Table :=
  ffillGo (List.replicate (widthOf tbl) none) tbl

/-- One-column forward-fill scan, used to state per-column facts about
`ffill`. -/
def ffill1 : Cell → List Cell → List Cell
  | _, [] => []
  | l, v :: vs =>
    let v' := fillCell l v
    v' :: ffill1 v' vs

/-- The cells of column `j`, in row order. -/
def colCells (j : ℕ) (tbl : Table) : List Cell :=
  tbl.map (fun r => r.2.getD j none)

/-- The cell of output row `i`, column `j` (missing when out of range). -/
def cellAt (tbl : Table) (i j : ℕ) : Cell :=
  (tbl.getD i (0, [])).2.getD j none

/-- An HTTP response as the fetchers see it: status code and body text. -/
structure HttpResponse where
  status_code : ℕ
  text : String

/-- Status check shared by both fetchers, `src/enexory_api.py` lines 15-17:
raise unless the status is exactly `200`; the exception message carries the
status code and the body text (`"Response status code:{}\n\t{}"`). -/
def check_response_status (r : HttpResponse) : Except String Unit :=
  if r.status_code ≠ 200 then
    Except.error ("Response status code:" ++ toString r.status_code ++ "\n\t" ++ r.text)
  else Except.ok ()

/-- A Python `str`, modelled as its character list so that every operation
on it is structurally recursive. -/
abbrev Str := List Char

/-- Python `s.split(sep)` for a one-character separator: never empty, keeps
empty fields (`"a;;".split(";") == ['a', '', '']`). -/
def splitOnChar (sep : Char) : Str → List Str
  | [] => [[]]
  | c :: cs =>
    let r := splitOnChar sep cs
    if c == sep then [] :: r
    else
      match r with
      | f :: rest => (c :: f) :: rest
      | [] => [[c]]

/-- Python `s.strip()` restricted to ASCII whitespace. -/
def stripChars (s : Str) : Str :=
  ((s.dropWhile Char.isWhitespace).reverse.dropWhile Char.isWhitespace).reverse

/-- Digit tail of a Python int literal: a single `_` may stand between two
digits (Python's `int("1_0")` is `10`); a trailing or doubled `_` fails. -/
def pyIntTail : ℕ → Str → Option ℕ
  | acc, [] => some acc
  | acc, '_' :: c :: cs =>
    if c.isDigit then pyIntTail (acc * 10 + (c.toNat - 48)) cs else none
  | _, ['_'] => none
  | acc, c :: cs =>
    if c.isDigit then pyIntTail (acc * 10 + (c.toNat - 48)) cs else none

/-- Unsigned part of a Python int literal: a nonempty ASCII digit sequence. -/
def pyIntCore : Str → Option ℕ
  | [] => none
  | c :: cs => if c.isDigit then pyIntTail (c.toNat - 48) cs else none

/-- Models Python `int(s)` as applied to the catalog's id field: surrounding
whitespace stripped, an optional sign, then ASCII decimal digits (with
single underscores allowed between digits); any other shape raises
`ValueError`, modelled by `none`. -/
def pyInt? (s : Str) : Option Int :=
  match stripChars s with
  | '-' :: rest => (pyIntCore rest).map (fun n => -(n : Int))
  | '+' :: rest => (pyIntCore rest).map (fun n => (n : Int))
  | l => (pyIntCore l).map (fun n => (n : Int))

/-- Python dict lookup `d[k]` on the id-to-name map, modelled as an
insertion-ordered association list with unique keys. -/
def dictFind (d : List (Int × Str)) (k : Int) : Option Str :=
  (d.find? (fun p => p.1 == k)).map Prod.snd

/-- Python dict assignment `d[k] = v`: overwrite the entry in place — keys
are unique, so the first match is the only one — when the key is already
present, append a new entry at the end otherwise. -/
def dictInsert : List (Int × Str) → Int → Str → List (Int × Str)
  | [], k, v => [(k, v)]
  | a :: as, k, v => if a.1 == k then (k, v) :: as else a :: dictInsert as k v

/-- Parser state of `get_all_data_types`, `src/enexory_api.py` lines 26-39:
the header's column indices, the id-to-name map built so far, and the
warnings logged so far (each recorded here by the offending id field). -/
structure ParseState where
  data_name_index : ℕ
  api_id_index : ℕ
  data_name_by_id : List (Int × Str)
  warnings : List Str
  deriving DecidableEq

/-- One data-line iteration of the parsing loop (the `elif` branch, lines
33-38): skip the line when it has too few fields to reach both the id and
the name column; otherwise convert the id with `int()`, logging a warning
instead of adding an entry when the conversion raises. -/
def processDataLine (st : ParseState) (line : Str) : ParseState :=
  let fields := splitOnChar ';' line
  if fields.length > max st.api_id_index st.data_name_index then
    let api_id := fields.getD st.api_id_index []
    match pyInt? api_id with
    | some n =>
      { st with data_name_by_id :=
          dictInsert st.data_name_by_id n (fields.getD st.data_name_index []) }
    | none => { st with warnings := st.warnings ++ [api_id] }
  else st

/-- Catalog parsing of `get_all_data_types`, `src/enexory_api.py` lines
24-40, starting from the decoded response body: the first line is the
header, whose `data_name` and `api_id` positions `list.index` finds
(raising `ValueError` when absent, which aborts the call); every further
line runs through `processDataLine`.  The `[]` case of the split is
unreachable (`splitOnChar` never returns an empty list). -/
def get_all_data_types (content : Str) : Except Str ParseState :=
  match splitOnChar '\n' content with
  | [] => Except.error "ValueError".toList
  | headerLine :: rest =>
    let hfields := splitOnChar ';' headerLine
    match hfields.findIdx? (· == "data_name".toList),
        hfields.findIdx? (· == "api_id".toList) with
    | some dni, some aii => Except.ok (rest.foldl processDataLine ⟨dni, aii, [], []⟩)
    | _, _ => Except.error "ValueError: substring not found".toList

/-- The catalog entry a data line contributes, given the header's column
indices: `none` when the line is skipped (too short or non-numeric id). -/
def goodEntry (dni aii : ℕ) (line : Str) : Option (Int × Str) :=
  let fields := splitOnChar ';' line
  if fields.length > max aii dni then
    (pyInt? (fields.getD aii [])).map (fun n => (n, fields.getD dni []))
  else none

/-- The name a single data line assigns to id `k`, if any. -/
def entryFor (dni aii : ℕ) (line : Str) (k : Int) : Option Str :=
  match goodEntry dni aii line with
  | some p => if p.1 == k then some p.2 else none
  | none => none

/-- The name assigned to id `k` by the last contributing data line among
`lines`, if any. -/
def lastGoodName (dni aii : ℕ) (lines : List Str) (k : Int) : Option Str :=
  (((lines.filterMap (goodEntry dni aii)).filter (fun p => p.1 == k)).getLast?).map
    Prod.snd

/-- The two network requests `main` can issue. -/
inductive NetCall where
  | catalogFetch
  | dataFetch
  deriving DecidableEq

/-- The list comprehension
`[data_name_by_id[data_id] for data_id in args.data_id]` of line 81: `none`
models the `KeyError` raised at the first id absent from the catalog. -/
def lookupNames (catalog : List (Int × Str)) : List Int → Option (List Str)
  | [] => some []
  | i :: is =>
    match dictFind catalog i with
    | none => none
    | some n => (lookupNames catalog is).map (fun ns => n :: ns)

/-- Trace model of `main`'s data branch, `src/enexory_api.py` lines 77-83:
after the catalog fetch, the name lookup either raises `KeyError` — ending
the run before `get_data` — or is followed by the data fetch. -/
def mainDataBranch (catalog : List (Int × Str)) (ids : List Int) :
    List NetCall × Except Str (List Str) :=
  match lookupNames catalog ids with
  | none => ([NetCall.catalogFetch], Except.error "KeyError".toList)
  | some names => ([NetCall.catalogFetch, NetCall.dataFetch], Except.ok names)

/-- Two rows with identical present values: the sample σ of the column is 0. -/
def exZeroVar : Table := [(0, [some 10]), (1, [some 10])]

/-- A column with two present values and one missing value. -/
def exMissingRow : Table := [(0, [some 0]), (1, [some 2]), (2, [none])]

/-- Two rows 8 hours apart: the middle 4-hour bucket is empty. -/
def exGap : Table := [(0, [some 1]), (480, [some 1])]

/-- One day of 15-minute rows (96 rows) of a single constant column. -/
def exDay : Table := (List.range 96).map (fun i => (15 * i, [some (1 : ℚ)]))

/-- A table whose first 4-hour bucket has no present value in its column. -/
def exAllMissingBucket : Table := [(0, [none]), (240, [some 2]), (250, [some 4])]

/-- Forward-fill example `[1, missing, missing, 2, missing]`. -/
def exFfillA : Table :=
  [(0, [some 1]), (1, [none]), (2, [none]), (3, [some 2]), (4, [none])]

/-- Forward-fill example `[missing, missing, 3]`. -/
def exFfillB : Table := [(0, [none]), (1, [none]), (2, [some 3])]

/-- 122 rows, two columns A (index 0) and B (index 1): row 0 is an A-outlier
(121 zeros against one 1000 clears the 10-sigma bar), row 1 is a B-outlier
once row 0 is gone, but not while row 0's B value still spreads column B. -/
def exOrder : Table :=
  (0, [some 1000, some 1000]) :: (1, [some 0, some 1000]) ::
    (List.range 120).map (fun i => (i + 2, [some 0, some 0]))

/-- One-entry catalog for the unknown-id example. -/
def exCatalog : List (Int × Str) := [(1, "a".toList)]

/-- Catalog body with two well-formed data lines sharing the id 1. -/
def exContent : Str := "api_id;data_name\n1;a\n1;b".toList

/-- The parse result of `exContent`. -/
def exContentState : ParseState := ⟨1, 0, [(1, "b".toList)], []⟩

/-! ## Theorems -/

/-- Indexing a mapped range at an in-range position. -/
theorem getD_range_map {α : Type} (f : ℕ → α) (n k : ℕ) (d : α) (hk : k < n) :
    ((List.range n).map f).getD k d = f k := by
  rw [List.getD_eq_getElem?_getD, List.getElem?_map, List.getElem?_range hk]
  rfl

/-- C7: the fetchers' status check fails exactly on a status other than 200 —
a 200 response never raises — and the error it raises carries both the
status code and the response body text in its message. -/
theorem check_response_status_iff (r : HttpResponse) :
    (check_response_status r = Except.ok () ↔ r.status_code = 200) ∧
    (r.status_code ≠ 200 →
      check_response_status r =
        Except.error ("Response status code:" ++ toString r.status_code ++
          "\n\t" ++ r.text)) := by
  refine ⟨⟨fun h => ?_, fun h => ?_⟩, fun h => ?_⟩
  · by_contra hne
    simp [check_response_status, hne] at h
  · simp [check_response_status, h]
  · simp [check_response_status, h]

/-- Witness for C7 at a concrete failing response. -/
theorem check_response_status_iff_w :
    (404 : ℕ) ≠ 200 ∧
    check_response_status ⟨404, "nf"⟩ =
      Except.error "Response status code:404\n\tnf" :=
  ⟨by decide, (check_response_status_iff ⟨404, "nf"⟩).2 (by decide)⟩

/-- An id absent from the catalog makes the whole list comprehension raise. -/
theorem lookupNames_eq_none (catalog : List (Int × Str)) (i : Int) :
    ∀ ids : List Int, i ∈ ids → dictFind catalog i = none →
      lookupNames catalog ids = none := by
  intro ids hi hnone
  induction ids with
  | nil => cases hi
  | cons a as ih =>
    cases hi with
    | head => simp [lookupNames, hnone]
    | tail _ hmem =>
      cases hfind : dictFind catalog a with
      | none => simp [lookupNames, hfind]
      | some n => simp [lookupNames, hfind, ih hmem]

/-- C9: when a requested id is not a key of the fetched catalog, the run
aborts with `KeyError` at the name lookup, before the data fetch: the trace
holds no second network request. -/
theorem unknown_id_aborts_before_fetch (catalog : List (Int × Str))
    (ids : List Int) (i : Int) (hi : i ∈ ids)
    (hnone : dictFind catalog i = none) :
    (mainDataBranch catalog ids).2 = Except.error "KeyError".toList ∧
    NetCall.dataFetch ∉ (mainDataBranch catalog ids).1 := by
  have h := lookupNames_eq_none catalog i ids hi hnone
  simp [mainDataBranch, h]

/-- Witness for C9: id 2 is unknown to `exCatalog`. -/
theorem unknown_id_aborts_before_fetch_w :
    ((2 : Int) ∈ [(2 : Int)] ∧ dictFind exCatalog 2 = none) ∧
    (mainDataBranch exCatalog [2]).2 = Except.error "KeyError".toList ∧
    NetCall.dataFetch ∉ (mainDataBranch exCatalog [2]).1 :=
  ⟨⟨by decide, by decide⟩,
    unknown_id_aborts_before_fetch exCatalog [2] 2 (by decide) (by decide)⟩

/-- C1 counterexample: `exZeroVar`'s only column has all present values
equal, so its sample standard deviation is 0 — yet processing the column
removes both rows (the kept mask `abs(v - mean) < 10*std` is `0 < 0`,
false), not zero rows as the claim states. -/
theorem zero_sigma_cex :
    ((presentIn 0 exZeroVar).map
        (fun x => (x - colMeanOf 0 exZeroVar) ^ 2)).sum = 0 ∧
    filterCol 0 exZeroVar ≠ exZeroVar ∧
    filterCol 0 exZeroVar = [] ∧ exZeroVar.length = 2 := by
  refine ⟨by decide, by decide, by decide, by decide⟩

/-- C1 amended: a column with at least two present values and zero sample
standard deviation (zero sum of squared deviations) makes the strict kept
mask false for every row, so processing that column removes every row of
the table, not zero rows. -/
theorem zero_sigma_removes_all (j : ℕ) (tbl : Table)
    (hn : 2 ≤ (presentIn j tbl).length)
    (hsq : ((presentIn j tbl).map (fun x => (x - colMeanOf j tbl) ^ 2)).sum = 0) :
    filterCol j tbl = [] := by
  have hv : colVarOf j tbl = 0 := by rw [colVarOf, hsq, zero_div]
  rw [filterCol, if_pos hn]
  refine List.filter_eq_nil_iff.mpr (fun r _ => ?_)
  cases hcell : r.2.getD j none with
  | none => simp [keepCell, hcell]
  | some x =>
    simp only [keepCell, hcell, hv, mul_zero, Bool.not_eq_true, decide_eq_false_iff_not]
    exact not_lt.mpr (sq_nonneg _)

/-- Witness for C1's amended statement at `exZeroVar`. -/
theorem zero_sigma_removes_all_w :
    (2 ≤ (presentIn 0 exZeroVar).length ∧
      ((presentIn 0 exZeroVar).map
        (fun x => (x - colMeanOf 0 exZeroVar) ^ 2)).sum = 0) ∧
    filterCol 0 exZeroVar = [] :=
  ⟨⟨by decide, by decide⟩, zero_sigma_removes_all 0 exZeroVar (by decide) (by decide)⟩

/-- C2 counterexample: in `exMissingRow`, the third row's value in the
filtered column is missing, and the claim says a missing-valued row is never
removed by that column's filter — but the pandas mask compares `NaN` as
false and the row is removed. -/
theorem outlier_missing_removed_cex :
    ((2, [none]) : ℕ × Row) ∈ exMissingRow ∧
    (((2, [none]) : ℕ × Row).2.getD 0 none = none) ∧
    2 ≤ (presentIn 0 exMissingRow).length ∧
    ((2, [none]) : ℕ × Row) ∉ filterCol 0 exMissingRow := by
  refine ⟨by decide, by decide, by decide, by decide⟩

/-- C2 amended: with at least two present values in column `j`, a row is
removed by that column's pass exactly when its value in the column is
missing, or is present with `|value − μ| ≥ 10σ` (stated on squares:
`(x − μ)² ≥ 100·σ²`); in particular a missing-valued row is always removed,
not never. -/
theorem outlier_removed_iff (j : ℕ) (tbl : Table) (r : ℕ × Row)
    (hr : r ∈ tbl) (hn : 2 ≤ (presentIn j tbl).length) :
    (r ∉ filterCol j tbl ↔
      r.2.getD j none = none ∨
        ∃ x, r.2.getD j none = some x ∧
          100 * colVarOf j tbl ≤ (x - colMeanOf j tbl) ^ 2) := by
  rw [filterCol, if_pos hn, List.mem_filter]
  cases hcell : r.2.getD j none with
  | none => simp [keepCell, hcell, hr]
  | some x => simp [keepCell, hcell, hr, not_lt]

/-- Witness for C2's amended statement at `exMissingRow`'s missing row. -/
theorem outlier_removed_iff_w :
    (((2, [none]) : ℕ × Row) ∈ exMissingRow ∧
      2 ≤ (presentIn 0 exMissingRow).length) ∧
    (((2, [none]) : ℕ × Row) ∉ filterCol 0 exMissingRow ↔
      ((2, [none]) : ℕ × Row).2.getD 0 none = none ∨
        ∃ x, ((2, [none]) : ℕ × Row).2.getD 0 none = some x ∧
          100 * colVarOf 0 exMissingRow ≤ (x - colMeanOf 0 exMissingRow) ^ 2) :=
  ⟨⟨by decide, by decide⟩,
    outlier_removed_iff 0 exMissingRow (2, [none]) (by decide) (by decide)⟩

set_option maxRecDepth 16000 in
/-- C6: the outlier stage is a sequential per-column fold, and on `exOrder`
— whose column A has its outlier at timestamp 0 and whose column B has its
outlier at timestamp 1 — the order `[A, B]` (the stage's own order) ends
with a different row set than `[B, A]`: A's pass removes row 0 either way,
but B's pass removes row 1 only after row 0 is gone. -/
theorem outlier_order_dependent :
    removeOutliersIn [0, 1] exOrder ≠ removeOutliersIn [1, 0] exOrder ∧
    removeOutliers exOrder = removeOutliersIn [0, 1] exOrder ∧
    (0, [some 1000, some 1000]) ∉ filterCol 0 exOrder ∧
    (1, [some 0, some 1000]) ∈ filterCol 0 exOrder ∧
    (1, [some 0, some 1000]) ∉ filterCol 1 (filterCol 0 exOrder) ∧
    (1, [some 0, some 1000]) ∈ filterCol 1 exOrder := by
  refine ⟨by decide, by decide, by decide, by decide, by decide, by decide⟩

/-- C3 counterexample: resampling `exGap` (rows at minutes 0 and 480) with a
240-minute step outputs three rows — one of them for the empty middle
bucket, with a missing cell — while only two buckets are non-empty, so the
output does not have one row per non-empty bucket. -/
theorem resample_empty_bucket_cex :
    resampleMean 240 exGap = [(0, [some 1]), (240, [none]), (480, [some 1])] ∧
    ((List.range 3).filter
      (fun i => !(bucketRows 0 240 i exGap).isEmpty)).length = 2 ∧
    (resampleMean 240 exGap).length = 3 := by
  refine ⟨by decide, by decide, by decide⟩

/-- C3 amended: for a non-empty table and positive step, the resampled
output has exactly one row per bucket from the earliest timestamp's bucket
through the latest one — empty buckets included — labelled by bucket start
time, in strictly increasing order; for 15-minute rows covering one day and
a 4-hour step this is exactly 6 rows (see the witness). -/
theorem resample_one_row_per_bucket (step : ℕ) (hstep : 0 < step)
    (tbl : Table) (h : tbl ≠ []) :
    (resampleMean step tbl).map Prod.fst =
      (List.range (bucketIdx (dayStart (minTime tbl)) step (maxTime tbl) + 1 -
          bucketIdx (dayStart (minTime tbl)) step (minTime tbl))).map
        (fun k => dayStart (minTime tbl) +
          (bucketIdx (dayStart (minTime tbl)) step (minTime tbl) + k) * step) ∧
    List.Pairwise (· < ·) ((resampleMean step tbl).map Prod.fst) := by
  obtain ⟨p, rest, rfl⟩ : ∃ p rest, tbl = p :: rest := by
    cases tbl with
    | nil => exact absurd rfl h
    | cons p rest => exact ⟨p, rest, rfl⟩
  constructor
  · simp only [resampleMean, List.map_map]
    rfl
  · simp only [resampleMean, List.map_map]
    rw [List.pairwise_map]
    exact (List.pairwise_lt_range _).imp
      (fun hab => Nat.add_lt_add_left
        (mul_lt_mul_of_pos_right (Nat.add_lt_add_left hab _) hstep) _)

set_option maxRecDepth 16000 in
/-- Witness for C3 at `exDay` (one day of 15-minute rows) with a 4-hour
step: the amended shape, and exactly 6 output rows. -/
theorem resample_one_row_per_bucket_w :
    ((0 : ℕ) < 240 ∧ exDay ≠ []) ∧
    ((resampleMean 240 exDay).map Prod.fst =
      (List.range (bucketIdx (dayStart (minTime exDay)) 240 (maxTime exDay) + 1 -
          bucketIdx (dayStart (minTime exDay)) 240 (minTime exDay))).map
        (fun k => dayStart (minTime exDay) +
          (bucketIdx (dayStart (minTime exDay)) 240 (minTime exDay) + k) * 240) ∧
      List.Pairwise (· < ·) ((resampleMean 240 exDay).map Prod.fst)) ∧
    (resampleMean 240 exDay).length = 6 :=
  ⟨⟨by decide, by decide⟩,
    resample_one_row_per_bucket 240 (by decide) exDay (by decide), by decide⟩

/-- C4: each resampled cell is the arithmetic mean of the present
(non-missing) values of its column among the rows of the corresponding
bucket, and a bucket with zero present values for the column yields a
missing cell, not zero. -/
theorem resample_cell_mean (step : ℕ) (tbl : Table) (k j : ℕ)
    (hk : k < (resampleMean step tbl).length) (hj : j < widthOf tbl) :
    cellAt (resampleMean step tbl) k j =
      (if presentIn j (bucketRows (dayStart (minTime tbl)) step
            (bucketIdx (dayStart (minTime tbl)) step (minTime tbl) + k) tbl) = []
        then none
        else some ((presentIn j (bucketRows (dayStart (minTime tbl)) step
            (bucketIdx (dayStart (minTime tbl)) step (minTime tbl) + k) tbl)).sum /
          (presentIn j (bucketRows (dayStart (minTime tbl)) step
            (bucketIdx (dayStart (minTime tbl)) step (minTime tbl) + k) tbl)).length)) := by
  cases tbl with
  | nil => simp [resampleMean] at hk
  | cons p rest =>
    have hk' : k < bucketIdx (dayStart (minTime (p :: rest))) step (maxTime (p :: rest)) + 1 -
        bucketIdx (dayStart (minTime (p :: rest))) step (minTime (p :: rest)) := by
      simpa [resampleMean] using hk
    simp only [cellAt, resampleMean]
    rw [getD_range_map _ _ _ _ hk']
    rw [getD_range_map _ _ _ _ hj]
    rw [colMean]
    by_cases hps : presentIn j (bucketRows (dayStart (minTime (p :: rest))) step
        (bucketIdx (dayStart (minTime (p :: rest))) step (minTime (p :: rest)) + k)
        (p :: rest)) = []
    · simp [hps]
    · simp [hps]

/-- Witness for C4 at `exAllMissingBucket`: the first bucket has no present
value in the column and its output cell is missing — not zero — while the
second bucket's cell is the mean 3 of its present values 2 and 4. -/
theorem resample_cell_mean_w :
    ((0 : ℕ) < (resampleMean 240 exAllMissingBucket).length ∧
      (0 : ℕ) < widthOf exAllMissingBucket) ∧
    cellAt (resampleMean 240 exAllMissingBucket) 0 0 =
      (if presentIn 0 (bucketRows (dayStart (minTime exAllMissingBucket)) 240
            (bucketIdx (dayStart (minTime exAllMissingBucket)) 240
              (minTime exAllMissingBucket) + 0) exAllMissingBucket) = []
        then none
        else some ((presentIn 0 (bucketRows (dayStart (minTime exAllMissingBucket)) 240
            (bucketIdx (dayStart (minTime exAllMissingBucket)) 240
              (minTime exAllMissingBucket) + 0) exAllMissingBucket)).sum /
          (presentIn 0 (bucketRows (dayStart (minTime exAllMissingBucket)) 240
            (bucketIdx (dayStart (minTime exAllMissingBucket)) 240
              (minTime exAllMissingBucket) + 0) exAllMissingBucket)).length)) ∧
    cellAt (resampleMean 240 exAllMissingBucket) 0 0 = none ∧
    cellAt (resampleMean 240 exAllMissingBucket) 1 0 = some 3 :=
  ⟨⟨by decide, by decide⟩,
    resample_cell_mean 240 exAllMissingBucket 0 0 (by decide) (by decide),
    by decide, by decide⟩

/-- Alternative on the right absorbs `none`. -/
theorem opt_orElse_none {α : Type} (a : Option α) : (a <|> none) = a := by
  cases a <;> rfl

/-- Alternative on `Option` is associative. -/
theorem opt_orElse_assoc {α : Type} (a b c : Option α) :
    ((a <|> b) <|> c) = (a <|> (b <|> c)) := by
  cases a <;> rfl

/-- The last element of a cons, through `Option`'s alternative. -/
theorem opt_getLast?_cons {α : Type} (a : α) (l : List α) :
    (a :: l).getLast? = (l.getLast? <|> some a) := by
  induction l generalizing a with
  | nil => rfl
  | cons b bs ih =>
    rw [List.getLast?_cons_cons, ih b]
    cases bs.getLast? <;> rfl

/-- `Option.map` distributes over the alternative. -/
theorem opt_map_orElse {α β : Type} (f : α → β) (a b : Option α) :
    (a <|> b).map f = ((a.map f) <|> (b.map f)) := by
  cases a <;> rfl

/-- Indexing a `zipWith fillCell` at an in-range position. -/
theorem zipWith_fillCell_getD (l r : Row) (j : ℕ)
    (hl : j < l.length) (hr : j < r.length) :
    (List.zipWith fillCell l r).getD j none =
      fillCell (l.getD j none) (r.getD j none) := by
  induction l generalizing r j with
  | nil => exact absurd hl (Nat.not_lt_zero j)
  | cons a as ih =>
    cases r with
    | nil => exact absurd hr (Nat.not_lt_zero j)
    | cons b bs =>
      cases j with
      | zero => rfl
      | succ j' =>
        exact ih bs j' (Nat.lt_of_succ_lt_succ hl) (Nat.lt_of_succ_lt_succ hr)

/-- The forward-fill scan keeps every timestamp. -/
theorem ffillGo_fst (rows : Table) :
    ∀ lastv : Row, (ffillGo lastv rows).map Prod.fst = rows.map Prod.fst := by
  induction rows with
  | nil => intro lastv; rfl
  | cons p rest ih =>
    intro lastv
    simp only [ffillGo, List.map_cons, ih]

/-- Column `j` of the forward-fill scan is the one-column scan of column `j`,
provided all rows (and the carried vector) have width `w > j`. -/
theorem ffillGo_col (j : ℕ) (rows : Table) :
    ∀ (lastv : Row) (w : ℕ), lastv.length = w → (∀ r ∈ rows, (Prod.snd r).length = w) →
      j < w →
      colCells j (ffillGo lastv rows) = ffill1 (lastv.getD j none) (colCells j rows) := by
  induction rows with
  | nil => intro lastv w _ _ _; rfl
  | cons p rest ih =>
    intro lastv w hlen hu hj
    have hp : p.2.length = w := hu p (List.mem_cons_self p rest)
    have hfill : (fillRow lastv p.2).getD j none =
        fillCell (lastv.getD j none) (p.2.getD j none) :=
      zipWith_fillCell_getD lastv p.2 j (hlen ▸ hj) (hp ▸ hj)
    have hfl : (fillRow lastv p.2).length = w := by
      rw [fillRow, List.length_zipWith, hlen, hp, Nat.min_self]
    simp only [ffillGo, colCells, List.map_cons, ffill1]
    rw [← colCells, ← colCells,
      ih (fillRow lastv p.2) w hfl (fun r hr => hu r (List.mem_cons_of_mem p hr)) hj,
      hfill]

/-- Characterisation of the one-column scan: a present value stays; a missing
one becomes the last present value seen before it, or the carried value. -/
theorem ffill1_getD (vs : List Cell) :
    ∀ (l : Cell) (i : ℕ), i < vs.length →
      (ffill1 l vs).getD i none =
        ((vs.getD i none) <|> (((vs.take i).filterMap id).getLast? <|> l)) := by
  induction vs with
  | nil => intro l i hi; exact absurd hi (Nat.not_lt_zero i)
  | cons v tl ih =>
    intro l i hi
    cases i with
    | zero => cases v <;> rfl
    | succ i' =>
      have lhs : (ffill1 l (v :: tl)).getD (i' + 1) none =
          (ffill1 (fillCell l v) tl).getD i' none := rfl
      rw [lhs, ih (fillCell l v) i' (Nat.lt_of_succ_lt_succ hi)]
      cases v with
      | none => rfl
      | some x =>
        show (tl.getD i' none <|>
            (((tl.take i').filterMap id).getLast? <|> some x)) =
          (tl.getD i' none <|>
            ((x :: (tl.take i').filterMap id).getLast? <|> l))
        rw [opt_getLast?_cons, opt_orElse_assoc]
        rfl

/-- A cell read through the table equals the cell read through its column,
at an in-range row. -/
theorem cellAt_eq_colCells (tbl : Table) (i j : ℕ) (hi : i < tbl.length) :
    cellAt tbl i j = (colCells j tbl).getD i none := by
  induction tbl generalizing i with
  | nil => exact absurd hi (Nat.not_lt_zero i)
  | cons p rest ih =>
    cases i with
    | zero => rfl
    | succ i' => exact ih i' (Nat.lt_of_succ_lt_succ hi)

/-- An all-missing row of any width reads `none` everywhere. -/
theorem replicate_none_getD (w j : ℕ) :
    (List.replicate w (none : Cell)).getD j none = none := by
  induction w generalizing j with
  | zero => rfl
  | succ w' ih =>
    cases j with
    | zero => rfl
    | succ j' => exact ih j'

/-- C5: the forward-fill stage removes no rows (all timestamps survive, in
order), and each cell becomes: its own value when present, otherwise the
most recent preceding present value of its column, otherwise (no preceding
present value) it stays missing.  In particular every already-present value
is unchanged. -/
theorem ffill_spec (tbl : Table) (w i j : ℕ) (hw : widthOf tbl = w)
    (hu : ∀ r ∈ tbl, (Prod.snd r).length = w) (hi : i < tbl.length) (hj : j < w) :
    (ffill tbl).map Prod.fst = tbl.map Prod.fst ∧
    cellAt (ffill tbl) i j =
      ((cellAt tbl i j) <|> (((colCells j tbl).take i).filterMap id).getLast?) := by
  have hfst : (ffill tbl).map Prod.fst = tbl.map Prod.fst := ffillGo_fst tbl _
  refine ⟨hfst, ?_⟩
  have hlen : (ffill tbl).length = tbl.length := by
    have := congrArg List.length hfst
    simpa using this
  have hcol : colCells j (ffill tbl) = ffill1 none (colCells j tbl) := by
    rw [ffill, hw,
      ffillGo_col j tbl (List.replicate w none) w (List.length_replicate w none) hu hj,
      replicate_none_getD]
  have hilen : i < (colCells j tbl).length := by
    rw [colCells, List.length_map]; exact hi
  rw [cellAt_eq_colCells (ffill tbl) i j (hlen ▸ hi), hcol,
    ffill1_getD (colCells j tbl) none i hilen,
    cellAt_eq_colCells tbl i j hi, opt_orElse_none]

/-- Witness for C5 at the spec's two example sequences:
`[1, missing, missing, 2, missing]` fills to `[1, 1, 1, 2, 2]` and
`[missing, missing, 3]` keeps its leading gaps. -/
theorem ffill_spec_w :
    (widthOf exFfillA = 1 ∧ (∀ r ∈ exFfillA, (Prod.snd r).length = 1) ∧
      (4 : ℕ) < exFfillA.length ∧ (0 : ℕ) < 1) ∧
    cellAt (ffill exFfillA) 4 0 =
      ((cellAt exFfillA 4 0) <|>
        (((colCells 0 exFfillA).take 4).filterMap id).getLast?) ∧
    ffill exFfillA =
      [(0, [some 1]), (1, [some 1]), (2, [some 1]), (3, [some 2]), (4, [some 2])] ∧
    ffill exFfillB = [(0, [none]), (1, [none]), (2, [some 3])] :=
  ⟨⟨by decide, by decide, by decide, by decide⟩,
    (ffill_spec exFfillA 1 4 0 (by decide) (by decide) (by decide) (by decide)).2,
    by decide, by decide⟩

/-- C8: during catalog parsing, a data line with fewer fields than needed to
reach both the id and the name column leaves the state untouched (skipped);
a line long enough whose id field `int()` rejects adds no catalog entry and
appends exactly one warning.  Either way the line produces a state, never an
error: the fold over the remaining lines continues. -/
theorem catalog_bad_lines_skipped (st : ParseState) (line : Str) :
    ((splitOnChar ';' line).length ≤ max st.api_id_index st.data_name_index →
      processDataLine st line = st) ∧
    (max st.api_id_index st.data_name_index < (splitOnChar ';' line).length →
      pyInt? ((splitOnChar ';' line).getD st.api_id_index []) = none →
        (processDataLine st line).data_name_by_id = st.data_name_by_id ∧
        (processDataLine st line).warnings =
          st.warnings ++ [(splitOnChar ';' line).getD st.api_id_index []]) := by
  constructor
  · intro hle
    rw [processDataLine, if_neg (by simpa using Nat.not_lt.mpr hle)]
  · intro hgt hbad
    simp only [processDataLine]
    rw [if_pos hgt, hbad]
    exact ⟨rfl, rfl⟩

/-- Witness for C8: with header indices `api_id = 0`, `data_name = 1`, the
line `"7"` is too short and is skipped unchanged, and the line `"abc;Name"`
has a non-numeric id: no entry, one recorded warning. -/
theorem catalog_bad_lines_skipped_w :
    processDataLine ⟨1, 0, [], []⟩ "7".toList = ⟨1, 0, [], []⟩ ∧
    (processDataLine ⟨1, 0, [], []⟩ "abc;Name".toList).data_name_by_id = [] ∧
    (processDataLine ⟨1, 0, [], []⟩ "abc;Name".toList).warnings =
      [] ++ ["abc".toList] :=
  ⟨(catalog_bad_lines_skipped ⟨1, 0, [], []⟩ "7".toList).1 (by decide),
    (catalog_bad_lines_skipped ⟨1, 0, [], []⟩ "abc;Name".toList).2
      (by decide) (by decide)⟩

/-- Looking a key up after a dict assignment: the assigned key reads the new
value, every other key is untouched. -/
theorem dictFind_dictInsert (d : List (Int × Str)) (n k : Int) (v : Str) :
    dictFind (dictInsert d n v) k = if k = n then some v else dictFind d k := by
  induction d with
  | nil =>
    by_cases h : k = n
    · simp [dictInsert, dictFind, h]
    · have hnk : ¬n = k := fun hc => h hc.symm
      simp [dictInsert, dictFind, h, hnk]
  | cons a as ih =>
    by_cases hak : (a.1 == n) = true
    · simp only [dictInsert, if_pos hak]
      by_cases hkn : k = n
      · simp [dictFind, hkn]
      · have han : a.1 = n := by simpa using hak
        have h1 : ((n, v).1 == k) = false := by
          simpa using fun hc => hkn (id (Eq.symm hc) : k = n)
        have h2 : (a.1 == k) = false := by
          rw [han]; simpa using fun hc => hkn (id (Eq.symm hc) : k = n)
        simp [dictFind, List.find?_cons, h1, h2, hkn]
    · simp only [dictInsert, if_neg hak]
      by_cases hka : (a.1 == k) = true
      · have hkn : ¬k = n := by
          intro he
          exact hak (by simpa [← he] using hka)
        simp [dictFind, List.find?_cons, hka, hkn]
      · simp only [dictFind, List.find?_cons, hka, cond_false]
        rw [← dictFind, ← dictFind, ih]

/-- A key of the dict after an assignment was the assigned key or an old
key. -/
theorem mem_keys_dictInsert (d : List (Int × Str)) (n : Int) (v : Str) (x : Int) :
    x ∈ (dictInsert d n v).map Prod.fst → x = n ∨ x ∈ d.map Prod.fst := by
  induction d with
  | nil =>
    intro hx
    exact Or.inl (by simpa [dictInsert] using hx)
  | cons a as ih =>
    by_cases hak : (a.1 == n) = true
    · simp only [dictInsert, if_pos hak, List.map_cons]
      intro hx
      rcases List.mem_cons.mp hx with h | h
      · exact Or.inl h
      · exact Or.inr (List.mem_cons_of_mem _ h)
    · simp only [dictInsert, if_neg hak, List.map_cons]
      intro hx
      rcases List.mem_cons.mp hx with h | h
      · exact Or.inr (h ▸ List.mem_cons_self _ _)
      · rcases ih h with h' | h'
        · exact Or.inl h'
        · exact Or.inr (List.mem_cons_of_mem _ h')

/-- Dict assignment keeps the keys unique. -/
theorem dictInsert_keys_nodup (d : List (Int × Str)) (n : Int) (v : Str)
    (h : (d.map Prod.fst).Nodup) : ((dictInsert d n v).map Prod.fst).Nodup := by
  induction d with
  | nil => simp [dictInsert]
  | cons a as ih =>
    rw [List.map_cons, List.nodup_cons] at h
    by_cases hak : (a.1 == n) = true
    · have han : a.1 = n := by simpa using hak
      simp only [dictInsert, if_pos hak, List.map_cons, List.nodup_cons]
      exact ⟨han ▸ h.1, h.2⟩
    · have han : ¬a.1 = n := by simpa using hak
      simp only [dictInsert, if_neg hak, List.map_cons, List.nodup_cons]
      refine ⟨fun hmem => ?_, ih h.2⟩
      rcases mem_keys_dictInsert as n v a.1 hmem with h' | h'
      · exact han h'
      · exact h.1 h'

/-- A data line changes neither header index. -/
theorem processDataLine_indices (st : ParseState) (line : Str) :
    (processDataLine st line).data_name_index = st.data_name_index ∧
    (processDataLine st line).api_id_index = st.api_id_index := by
  simp only [processDataLine]
  by_cases h : max st.api_id_index st.data_name_index < (splitOnChar ';' line).length
  · rw [if_pos h]
    cases hpy : pyInt? ((splitOnChar ';' line).getD st.api_id_index []) <;>
      exact ⟨rfl, rfl⟩
  · rw [if_neg h]
    exact ⟨rfl, rfl⟩

/-- The catalog after a data line: the line's contribution inserted, or the
old catalog when the line is skipped or warned about. -/
theorem processDataLine_catalog (st : ParseState) (line : Str) :
    (processDataLine st line).data_name_by_id =
      (match goodEntry st.data_name_index st.api_id_index line with
        | some p => dictInsert st.data_name_by_id p.1 p.2
        | none => st.data_name_by_id) := by
  simp only [processDataLine, goodEntry]
  by_cases h : max st.api_id_index st.data_name_index < (splitOnChar ';' line).length
  · rw [if_pos h, if_pos h]
    cases hpy : pyInt? ((splitOnChar ';' line).getD st.api_id_index []) <;> rfl
  · rw [if_neg h, if_neg h]

/-- Looking a key up after one data line: the line's own entry wins,
otherwise the previous catalog answers. -/
theorem dictFind_processDataLine (st : ParseState) (l : Str) (k : Int) :
    dictFind (processDataLine st l).data_name_by_id k =
      (entryFor st.data_name_index st.api_id_index l k <|>
        dictFind st.data_name_by_id k) := by
  rw [processDataLine_catalog]
  cases hg : goodEntry st.data_name_index st.api_id_index l with
  | none =>
    simp only [entryFor, hg]
    rfl
  | some p =>
    simp only [entryFor, hg, dictFind_dictInsert]
    by_cases hk : (p.1 == k) = true
    · have hkp : k = p.1 := (by simpa using hk : p.1 = k).symm
      rw [if_pos hkp, if_pos hk]
      rfl
    · have hkp : ¬k = p.1 := fun he => hk (by simpa using he.symm)
      rw [if_neg hkp, if_neg hk]
      rfl

/-- `lastGoodName` over a cons: the rest of the lines win over the head. -/
theorem lastGoodName_cons (dni aii : ℕ) (l : Str) (ls : List Str) (k : Int) :
    lastGoodName dni aii (l :: ls) k =
      (lastGoodName dni aii ls k <|> entryFor dni aii l k) := by
  simp only [lastGoodName, List.filterMap_cons]
  cases hg : goodEntry dni aii l with
  | none =>
    simp only [entryFor, hg]
    rw [opt_orElse_none]
  | some p =>
    simp only [entryFor, hg]
    by_cases hk : (p.1 == k) = true
    · rw [List.filter_cons_of_pos (p := fun q : Int × Str => q.1 == k) hk,
        opt_getLast?_cons, opt_map_orElse, if_pos hk]
      rfl
    · rw [List.filter_cons_of_neg (p := fun q : Int × Str => q.1 == k)
          (by simpa using hk),
        if_neg hk, opt_orElse_none]

/-- Folding the parse over lines: the final catalog answers a key with the
last contributing line's name, else with the starting catalog's answer. -/
theorem foldl_processDataLine_find (lines : List Str) :
    ∀ (st : ParseState) (k : Int),
      dictFind ((lines.foldl processDataLine st).data_name_by_id) k =
        (lastGoodName st.data_name_index st.api_id_index lines k <|>
          dictFind st.data_name_by_id k) := by
  induction lines with
  | nil =>
    intro st k
    rw [List.foldl_nil]
    rfl
  | cons l ls ih =>
    intro st k
    rw [List.foldl_cons, ih, lastGoodName_cons,
      (processDataLine_indices st l).1, (processDataLine_indices st l).2,
      dictFind_processDataLine, opt_orElse_assoc]

/-- Folding the parse over lines keeps the header indices. -/
theorem foldl_processDataLine_indices (lines : List Str) :
    ∀ st : ParseState,
      (lines.foldl processDataLine st).data_name_index = st.data_name_index ∧
      (lines.foldl processDataLine st).api_id_index = st.api_id_index := by
  induction lines with
  | nil => intro st; exact ⟨rfl, rfl⟩
  | cons l ls ih =>
    intro st
    rw [List.foldl_cons]
    exact ⟨((ih _).1).trans (processDataLine_indices st l).1,
      ((ih _).2).trans (processDataLine_indices st l).2⟩

/-- Folding the parse over lines keeps the catalog keys unique. -/
theorem foldl_processDataLine_nodup (lines : List Str) :
    ∀ st : ParseState, (st.data_name_by_id.map Prod.fst).Nodup →
      (((lines.foldl processDataLine st).data_name_by_id).map Prod.fst).Nodup := by
  induction lines with
  | nil => intro st h; exact h
  | cons l ls ih =>
    intro st h
    rw [List.foldl_cons]
    refine ih _ ?_
    rw [processDataLine_catalog]
    cases goodEntry st.data_name_index st.api_id_index l with
    | none => exact h
    | some p => exact dictInsert_keys_nodup _ _ _ h

/-- C10: a successfully parsed catalog maps each id to the name of the last
well-formed data line carrying that id — later entries overwrite earlier
ones — and its keys are unique, so it holds exactly one name per id. -/
theorem catalog_last_entry_wins (content : Str) (st : ParseState) (k : Int)
    (h : get_all_data_types content = Except.ok st) :
    dictFind st.data_name_by_id k =
      lastGoodName st.data_name_index st.api_id_index
        ((splitOnChar '\n' content).drop 1) k ∧
    (st.data_name_by_id.map Prod.fst).Nodup := by
  simp only [get_all_data_types] at h
  cases hsp : splitOnChar '\n' content with
  | nil => rw [hsp] at h; exact Except.noConfusion h
  | cons hl rest =>
    rw [hsp] at h
    simp only [] at h
    cases hdn : (splitOnChar ';' hl).findIdx? (· == "data_name".toList) with
    | none => rw [hdn] at h; exact Except.noConfusion h
    | some dni =>
      cases hai : (splitOnChar ';' hl).findIdx? (· == "api_id".toList) with
      | none => rw [hdn, hai] at h; exact Except.noConfusion h
      | some aii =>
        rw [hdn, hai] at h
        have hst : rest.foldl processDataLine ⟨dni, aii, [], []⟩ = st :=
          Except.ok.inj h
        subst hst
        refine ⟨?_, foldl_processDataLine_nodup rest _ List.nodup_nil⟩
        rw [foldl_processDataLine_find,
          (foldl_processDataLine_indices rest ⟨dni, aii, [], []⟩).1,
          (foldl_processDataLine_indices rest ⟨dni, aii, [], []⟩).2]
        have hemp : dictFind (⟨dni, aii, [], []⟩ : ParseState).data_name_by_id k =
            none := rfl
        rw [hemp, opt_orElse_none]
        rfl

/-- Witness for C10: in `exContent` the id 1 appears on two data lines; the
parsed catalog maps 1 to the second line's name and keeps its keys unique. -/
theorem catalog_last_entry_wins_w :
    get_all_data_types exContent = Except.ok exContentState ∧
    (dictFind exContentState.data_name_by_id 1 =
      lastGoodName exContentState.data_name_index exContentState.api_id_index
        ((splitOnChar '\n' exContent).drop 1) 1 ∧
      (exContentState.data_name_by_id.map Prod.fst).Nodup) ∧
    dictFind exContentState.data_name_by_id 1 = some "b".toList :=
  ⟨rfl, catalog_last_entry_wins exContent exContentState 1 rfl, by decide⟩

end Enexory
